import Mathlib

/-!
Verification development for the jobsearch crawler.

Shallow embedding of the scraper's link classification
(`JobScraper.is_valid_link`, `JobScraper.process_link_url`), the job store
(`JobData.add_new_link`, `JobData.get_search_terms_and_validities`), the
crawl driver (`JobScraper.perform_searches` with its saved-state cursor),
the HTTP retry loop (`NetworkHandler.get_request`) and the maintenance
field-update pass (`data_migration/update_main_fields.py`).

Network access, the browser and the SQL engine are abstracted as explicit
oracles and a concrete relational state; every definition follows the
corresponding Python function line by line.
-/

/-- Python truthiness of an optional string: `None` and `""` are falsy,
every other string is truthy. -/
def pyTruthy : Option String → Bool
  | none => false
  | some s => s ≠ ""

/-- Lookup in a Python dict built from an association list in iteration
order: a later binding of a key overwrites an earlier one, so the lookup
returns the value of the last occurrence of the key. -/
def dictLookup (l : List (String × Bool)) (k : String) : Option Bool :=
  l.reverse.lookup k

/-- Python `str.lower()` (ASCII model), character by character. -/
def strLower (s : String) : String :=
  String.mk (s.toList.map Char.toLower)

/-- Word character for the regex word boundary `\b` (ASCII model of Python
`re`: letters, digits and the underscore). -/
def isWordChar (c : Char) : Bool := c.isAlphanum || c = '_'

/-- Whether the character at index `i` of `cs` is a word character; an out
of range index counts as non-word, matching regex semantics at the two ends
of the subject text. -/
def wordAt (cs : List Char) (i : Nat) : Bool :=
  match cs[i]? with
  | some c => isWordChar c
  | none => false

/-- Regex word boundary `\b` at position `i` of `cs`: exactly one of the
character before position `i` and the character at position `i` is a word
character. -/
def boundaryAt (cs : List Char) (i : Nat) : Bool :=
  (if i = 0 then false else wordAt cs (i - 1)) != wordAt cs i

/-- Occurrence of the literal `pat` at position `i` of `cs`. -/
def literalAt (cs pat : List Char) (i : Nat) : Bool :=
  (cs.drop i).take pat.length == pat

/-- Model of `re.search` for the pattern `\b<escaped term>\b`: some position
of the subject carries the literal term with a word boundary at both ends.
`re.escape` makes every character of the term literal, so the term
contributes no metacharacters. -/
def wholeWordSearchL (pat cs : List Char) : Bool :=
  (List.range (cs.length + 1)).any fun i =>
    literalAt cs pat i && boundaryAt cs i && boundaryAt cs (i + pat.length)

/-- String version of `wholeWordSearchL`. -/
def wholeWordSearch (pat s : String) : Bool :=
  wholeWordSearchL pat.toList s.toList

/-- Specification-side statement of the whole-word/phrase rule: the term
occurs at some position of the text with a regex word boundary on each
side. -/
def OccursWholeWord (pat s : String) : Prop :=
  ∃ i, i ≤ s.toList.length ∧
    literalAt s.toList pat.toList i = true ∧
    boundaryAt s.toList i = true ∧
    boundaryAt s.toList (i + pat.toList.length) = true

/-- Abstraction of a fetched, parsed detail page (the BeautifulSoup value):
the visible text of the page and the texts of its `span` tags. -/
structure Soup where
  visibleText : String
  spans : List String
deriving DecidableEq

/-- Numeric value of a list of decimal digit characters, as Python `int`. -/
def digitsToNat (ds : List Char) : Nat :=
  ds.foldl (fun n c => 10 * n + (c.toNat - '0'.toNat)) 0

/-- First match of the regex `(\d+)<letter>` in `cs`, as in
`re.search(r"(\d+)d", text)`: at the leftmost position where a maximal
digit run is immediately followed by the letter, return the numeric value
of the run. -/
def findDigitsBefore (letter : Char) : List Char → Option Nat
  | [] => none
  | c :: rest =>
    if c.isDigit then
      let run := (c :: rest).takeWhile Char.isDigit
      let after := (c :: rest).dropWhile Char.isDigit
      if after.head? = some letter then some (digitsToNat run)
      else findDigitsBefore letter rest
    else findDigitsBefore letter rest

/-- Substring containment, as the Python `in` operator on strings. -/
def containsSubL (needle hay : List Char) : Bool :=
  (List.range (hay.length + 1)).any fun i => literalAt hay needle i

/-- String version of `containsSubL`. -/
def containsSub (needle hay : String) : Bool :=
  containsSubL needle.toList hay.toList

/-- Embedding of `JobScraper.extract_job_age` over the list of span texts: on a span
whose lowercase text mentions "posted", read "Nd ago" as N days, or
"Nh ago" as 0 days; spans where the inner regex finds no number are passed
over, and `none` is returned when no span decides. -/
def extractJobAgeGo : List String → Option Nat
  | [] => none
  | s :: rest =>
    let lower := strLower s
    if containsSub "posted" lower then
      if containsSub "d ago" lower then
        match findDigitsBefore 'd' s.toList with
        | some n => some n
        | none => extractJobAgeGo rest
      else if containsSub "h ago" lower then
        match findDigitsBefore 'h' s.toList with
        | some _ => some 0
        | none => extractJobAgeGo rest
      else extractJobAgeGo rest
    else extractJobAgeGo rest

/-- Embedding of `JobScraper.extract_job_age` on a parsed page. -/
def extract_job_age (soup : Soup) : Option Nat :=
  extractJobAgeGo soup.spans

/-- Embedding of `JobScraper.is_valid_link`, with the network abstracted as a fetch
oracle (`url -> parsed page`, `none` when `get_soup` yields no content,
e.g. on a non-200 response): lowercase the visible text, search for the
term as `\b<term>\b`, and extract the job age only for valid links. -/
def is_valid_link (fetch : String → Option Soup) (search_term url : String) :
    Bool × Option Nat :=
  match fetch url with
  | none => (false, none)
  | some soup =>
    let visible_text := strLower soup.visibleText
    let valid := wholeWordSearch (strLower search_term) visible_text
    if valid then (true, extract_job_age soup)
    else (false, none)

/-- Python `str.split` with a one-character separator: split at every
occurrence of the separator, keeping empty groups. -/
def splitOnCharGo (sep : Char) : List Char → List (List Char)
  | [] => [[]]
  | c :: rest =>
    match splitOnCharGo sep rest with
    | [] => [[]]
    | g :: gs => if c = sep then [] :: g :: gs else (c :: g) :: gs

/-- Embedding of `JobData.extract_job_number_from_url`: `url.split("/")[-1]`, the
characters after the last forward slash of the URL. -/
def extract_job_number_from_url (url : String) : String :=
  String.mk ((splitOnCharGo '/' url.toList).getLastD [])

/-- Modelled from the spec: `JobData.calculate_job_date` is called by the
scraper but absent from the sources; per the spec, the posting age in days
is subtracted from the current date. Calendar dates are modelled as day
numbers. -/
def calculate_job_date (today : Int) (job_age : Nat) : Int :=
  today - job_age

/-- The `LinkStatus` enum from `models.py`. -/
inductive LinkStatus where
  | VALID
  | INVALID
deriving DecidableEq

/-- The test `status == LinkStatus.VALID`, the `is_valid` boolean computed at the
top of `JobData.add_new_link`. -/
def LinkStatus.isValid : LinkStatus → Bool
  | .VALID => true
  | .INVALID => false

/-- A row of the `jobs` table, per `create_tables_if_not_exists` in
`models.py`; `posting_date` carries the date column of the spec's job
schema, written only by the spec-modelled `add_or_update_link` and never
touched by `add_new_link`. -/
structure JobRow where
  job_id : Nat
  job_number : String
  job_url : String
  title : Option String := none
  comments : Option String := none
  requirements : Option String := none
  follow_up : Option String := none
  highlight : Option String := none
  applied : Option String := none
  contact : Option String := none
  application_comments : Option String := none
  job_html : Option String := none
  valid : Bool := false
  posting_date : Option Int := none
deriving DecidableEq

/-- A row of the `search_terms` table. -/
structure TermRow where
  term_id : Nat
  term_text : String
deriving DecidableEq

/-- A row of the `job_search_terms` junction table. -/
structure JstRow where
  job_id : Nat
  term_id : Nat
  valid : Bool
deriving DecidableEq

/-- The relational state of the job store: the three tables together with
the next values of the two SERIAL id sequences. -/
structure DB where
  jobs : List JobRow
  search_terms : List TermRow
  job_search_terms : List JstRow
  next_job_id : Nat
  next_term_id : Nat
deriving DecidableEq

/-- The store right after `create_tables_if_not_exists` on a fresh
database. -/
def emptyDB : DB :=
  { jobs := [], search_terms := [], job_search_terms := [],
    next_job_id := 0, next_term_id := 0 }

/-- A freshly inserted `jobs` row: identifier, URL and (for the
spec-modelled upsert) posting date are set; every other column keeps its
NULL/FALSE column default. -/
def newJobRow (id : Nat) (jn u : String) (d : Option Int) : JobRow :=
  { job_id := id, job_number := jn, job_url := u, posting_date := d }

/-- The query `SELECT job_id, ... FROM jobs WHERE job_number = %s` (first row). -/
def findJob (db : DB) (job_number : String) : Option JobRow :=
  db.jobs.find? (fun r => r.job_number = job_number)

/-- The query `SELECT term_id FROM search_terms WHERE term_text = %s` (first row). -/
def findTerm (db : DB) (term_text : String) : Option TermRow :=
  db.search_terms.find? (fun r => r.term_text = term_text)

/-- Join lookup of a term row by its id. -/
def findTermById (db : DB) (term_id : Nat) : Option TermRow :=
  db.search_terms.find? (fun r => r.term_id = term_id)

/-- The statement `INSERT INTO jobs (job_number, job_url) VALUES (...) ON CONFLICT
(job_number) DO NOTHING`: keep the table unchanged when the job number is
already present; a clash of the unique `job_url` with a different job
number is a constraint violation and raises. -/
def upsertJobPlain (db : DB) (job_number url : String) : Except String DB :=
  if db.jobs.any (fun r => r.job_number = job_number) then .ok db
  else if db.jobs.any (fun r => r.job_url = url) then
    .error "UniqueViolation job_url"
  else
    .ok { db with
      jobs := db.jobs ++ [{ job_id := db.next_job_id,
                            job_number := job_number, job_url := url }],
      next_job_id := db.next_job_id + 1 }

/-- The statement `INSERT INTO jobs (job_number, job_url, job_html) VALUES (...) ON
CONFLICT (job_number) DO UPDATE SET job_html = COALESCE(jobs.job_html,
EXCLUDED.job_html)`: on conflict, fill `job_html` only if it is currently
NULL; otherwise insert a fresh row carrying the html. -/
def upsertJobHtml (db : DB) (job_number url html : String) :
    Except String DB :=
  if db.jobs.any (fun r => r.job_number = job_number) then
    .ok { db with
      jobs := db.jobs.map (fun r =>
        if r.job_number = job_number then
          { r with job_html := r.job_html.orElse (fun _ => some html) }
        else r) }
  else if db.jobs.any (fun r => r.job_url = url) then
    .error "UniqueViolation job_url"
  else
    .ok { db with
      jobs := db.jobs ++ [{ job_id := db.next_job_id,
                            job_number := job_number, job_url := url,
                            job_html := some html }],
      next_job_id := db.next_job_id + 1 }

/-- The statement `INSERT INTO search_terms (term_text) VALUES (%s) ON CONFLICT
(term_text) DO NOTHING`. -/
def insertTerm (db : DB) (term_text : String) : DB :=
  if db.search_terms.any (fun r => r.term_text = term_text) then db
  else
    { db with
      search_terms := db.search_terms ++
        [{ term_id := db.next_term_id, term_text := term_text }],
      next_term_id := db.next_term_id + 1 }

/-- The statement `INSERT INTO job_search_terms (job_id, term_id, valid) VALUES (...) ON
CONFLICT (job_id, term_id) DO UPDATE SET valid = EXCLUDED.valid`. -/
def upsertAssoc (db : DB) (job_id term_id : Nat) (valid : Bool) : DB :=
  if db.job_search_terms.any
      (fun e => e.job_id = job_id && e.term_id = term_id) then
    { db with
      job_search_terms := db.job_search_terms.map (fun e =>
        if e.job_id = job_id && e.term_id = term_id then
          { e with valid := valid }
        else e) }
  else
    { db with
      job_search_terms := db.job_search_terms ++
        [{ job_id := job_id, term_id := term_id, valid := valid }] }

/-- The tail of `JobData.add_new_link` shared with the outcome-recording
path: insert the search term, fetch `job_id` and `term_id` (an absent row
makes the Python `fetch(...)[0][0]` raise), and upsert the association
with the computed validity. -/
def finishLink (db : DB) (search_term job_number : String)
    (is_valid : Bool) : Except String DB :=
  let db1 := insertTerm db search_term
  match findJob db1 job_number, findTerm db1 search_term with
  | some jrow, some trow =>
    .ok (upsertAssoc db1 jrow.job_id trow.term_id is_valid)
  | _, _ => .error "IndexError"

/-- Embedding of `JobData.add_new_link(search_term, url, job_number, status,
job_html=None)`: upsert the job row (the COALESCE form when the link is
valid and `job_html` is truthy, the DO NOTHING form otherwise), insert the
search term, and upsert the (job, term) association with the validity. -/
def add_new_link (db : DB) (search_term url job_number : String)
    (status : LinkStatus) (job_html : Option String := none) :
    Except String DB :=
  let is_valid := status.isValid
  let step1 :=
    if is_valid && pyTruthy job_html then
      upsertJobHtml db job_number url (job_html.getD "")
    else
      upsertJobPlain db job_number url
  step1.bind (fun db1 => finishLink db1 search_term job_number is_valid)

/-- Modelled from the spec: `JobData.add_or_update_link` is called by
`JobScraper.process_link_url` but absent from the sources. Per the spec's
`record_outcome(term, url, job_id, date_or_null, valid)`: upsert the job
record (creating it if absent, filling only the currently-null posting
date), upsert the search term, and upsert the association with the
computed validity. -/
def add_or_update_link (db : DB) (search_term url job_number : String)
    (job_date : Option Int) (status : LinkStatus) : Except String DB :=
  let step1 :=
    if db.jobs.any (fun r => r.job_number = job_number) then
      .ok { db with
        jobs := db.jobs.map (fun r =>
          if r.job_number = job_number then
            { r with posting_date := r.posting_date.orElse (fun _ => job_date) }
          else r) }
    else if db.jobs.any (fun r => r.job_url = url) then
      Except.error "UniqueViolation job_url"
    else
      .ok { db with
        jobs := db.jobs ++ [{ job_id := db.next_job_id,
                              job_number := job_number, job_url := url,
                              posting_date := job_date }],
        next_job_id := db.next_job_id + 1 }
  step1.bind (fun db1 => finishLink db1 search_term job_number status.isValid)

/-- Embedding of `JobData.get_search_terms_and_validities`: look up the job id for the
job number (empty dict when the job is unknown), then join the junction
table with `search_terms` and build the `term_text -> valid` dict. -/
def get_search_terms_and_validities (db : DB) (job_number : String) :
    List (String × Bool) :=
  match findJob db job_number with
  | none => []
  | some jrow =>
    db.job_search_terms.filterMap (fun e =>
      if e.job_id = jrow.job_id then
        (findTermById db e.term_id).map (fun tr => (tr.term_text, e.valid))
      else none)

/-- Classification outcome of `JobScraper.process_link_url`, named after
the printed symbols X, x, V, I. -/
inductive Outcome where
  | SKIPPED_VALID
  | SKIPPED_INVALID
  | NEW_VALID
  | NEW_INVALID
deriving DecidableEq

deriving instance DecidableEq for Except

/-- Result of one `process_link_url` call: the outcome, the store state
after the call (an `Except` since the store can raise), and whether the
detail page was fetched from the network. -/
structure ProcResult where
  outcome : Outcome
  db : Except String DB
  fetched : Bool
deriving DecidableEq

/-- Embedding of `JobScraper.process_link_url`: extract the job number (last path
segment), query the stored `term -> validity` dict for it, short-circuit
to a SKIPPED outcome when the search term is present, and otherwise fetch
and validate the page and record the outcome through the store. -/
def process_link_url (fetch : String → Option Soup) (today : Int)
    (db : DB) (url search_term : String) : ProcResult :=
  let job_number := extract_job_number_from_url url
  let search_term_validities := get_search_terms_and_validities db job_number
  match dictLookup search_term_validities search_term with
  | some v =>
    { outcome := if v then .SKIPPED_VALID else .SKIPPED_INVALID,
      db := .ok db, fetched := false }
  | none =>
    let vj := is_valid_link fetch search_term url
    let job_date := vj.2.map (calculate_job_date today)
    { outcome := if vj.1 then .NEW_VALID else .NEW_INVALID,
      db := add_or_update_link db search_term url job_number job_date
              (if vj.1 then .VALID else .INVALID),
      fetched := true }

/-- Environment of one `JobScraper.perform_searches` run. `results t` is
the number of the last result-bearing page of term `t`: the navigator's
`has_results` check (absent from the sources; per the spec, "absence of
any result items on the newly loaded page is the termination signal")
holds for page `p` exactly when `p ≤ results t`. `interrupt t p` states
that a `KeyboardInterrupt` arrives at the start of the page-loop iteration
for page `p` of term `t` (the spec's cooperative cancellation between
logical steps). -/
structure DriverCfg where
  results : String → Nat
  interrupt : String → Nat → Bool

/-- Result of the inner `while True` page loop of `perform_searches` for
one term: the pages fetched and processed, and, if interrupted, the value
of `page_number` at the interrupt. -/
inductive LoopRes where
  | normal (visited : List Nat)
  | interrupted (visited : List Nat) (page : Nat)
deriving DecidableEq

/-- The `while True` page loop of `perform_searches`: fetch and process
page `p`, stop after the first page with no results, else advance to
`p + 1`; an interrupt aborts the loop with the current page number. -/
def pageLoop (cfg : DriverCfg) (t : String) (p : Nat) : LoopRes :=
  if cfg.interrupt t p then .interrupted [] p
  else if _h : p ≤ cfg.results t then
    match pageLoop cfg t (p + 1) with
    | .normal vs => .normal (p :: vs)
    | .interrupted vs q => .interrupted (p :: vs) q
  else .normal [p]
termination_by cfg.results t + 1 - p
decreasing_by omega

/-- Closed form of the pages the loop visits from page `p` of term `t`
when no interrupt arrives: pages `p, p+1, ...` up to and including the
first page with no results. -/
def pagesFrom (cfg : DriverCfg) (t : String) (p : Nat) : List Nat :=
  if p ≤ cfg.results t then List.range' p (cfg.results t + 2 - p)
  else [p]

/-- Observable result of one `perform_searches` run: the `(term, page)`
result pages fetched in order, the `save_state` calls made, and the state
left in `scraper_state.csv` at the end (`none` when the file is cleared or
was never written, which `load_state` reads back as no saved state). -/
structure RunResult where
  trace : List (String × Nat)
  saveEvents : List (String × Nat)
  finalCursor : Option (String × Nat)
deriving DecidableEq

/-- The `for search_term in search_terms` loop of `perform_searches`,
carrying the `start_from_term` and `start_from_page` variables
(`start_from_term` is the Python value `False` or a string, with Python
truthiness; `saved["search_term"] == search_term` resets it to `False`
after the resumed term). Returns the trace and, if a `KeyboardInterrupt`
arrived, the `(search_term, page_number)` pair current at that moment. -/
def searchLoop (cfg : DriverCfg) :
    List String → Option String → Nat →
    List (String × Nat) × Option (String × Nat)
  | [], _, _ => ([], none)
  | t :: rest, sft, sfp =>
    if pyTruthy sft && (sft != some t) then searchLoop cfg rest sft sfp
    else
      match pageLoop cfg t sfp with
      | .interrupted vs q => (vs.map (fun p => (t, p)), some (t, q))
      | .normal vs =>
        let sft' := if sft = some t then none else sft
        let r := searchLoop cfg rest sft' 1
        (vs.map (fun p => (t, p)) ++ r.1, r.2)

/-- Embedding of `JobScraper.perform_searches` at the level of pagination and cursor
state: load the saved `{search_term, page_number}` cursor, run the term
loop, and either clear the state file on normal completion or, on a
`KeyboardInterrupt`, call `save_state` with the current term and page. -/
def perform_searches (cfg : DriverCfg) (search_terms : List String)
    (saved : Option (String × Nat)) : RunResult :=
  let start_from_term : Option String := saved.map (fun s => s.1)
  let start_from_page : Nat := match saved with | some s => s.2 | none => 1
  match searchLoop cfg search_terms start_from_term start_from_page with
  | (tr, none) => { trace := tr, saveEvents := [], finalCursor := none }
  | (tr, some tp) =>
    { trace := tr, saveEvents := [tp], finalCursor := some tp }

/-- The per-page persistence the spec attributes to the driver: after each
processed page a cursor pointing at the next page is saved, so the run's
save events would mirror its trace shifted by one page. -/
def savesCursorEachPage (r : RunResult) : Prop :=
  r.saveEvents = r.trace.map (fun z => (z.1, z.2 + 1))

/-- The extracted main fields of a job record as used by the maintenance
pass in `data_migration/update_main_fields.py` (the `Job` ORM columns it
touches). -/
structure JobFields where
  position : Option String
  advertiser : Option String
  location : Option String
  work_type : Option String
deriving DecidableEq

/-- The per-job field assignment of `update_main_fields.main`:
`job.position = position if position else job.position` and likewise for
the advertiser, location and work type (Python truthiness: a `None` or
empty extraction keeps the stored value). -/
def updateMainFields (job : JobFields)
    (position advertiser location work_type : Option String) : JobFields :=
  { position := if pyTruthy position then position else job.position,
    advertiser := if pyTruthy advertiser then advertiser else job.advertiser,
    location := if pyTruthy location then location else job.location,
    work_type := if pyTruthy work_type then work_type else job.work_type }

/-- Observable result of one `NetworkHandler.get_request` call: the value
returned or the exception finally raised, the number of GET attempts made,
and the sleeps performed (one entry per delay, with its duration). -/
structure FetchResult (E R : Type) where
  result : Except (Option E) R
  attempts : Nat
  sleeps : List Nat
deriving DecidableEq

/-- Constant `DelaySettings.REQUEST_EXCEPTION_DELAY`. -/
def REQUEST_EXCEPTION_DELAY : Nat := 5

/-- Constant `DelaySettings.NUM_RETRIES`. -/
def NUM_RETRIES : Nat := 4

/-- The `for _ in range(NUM_RETRIES)` body of `get_request`: `attempt i`
is the outcome of the i-th GET. A success returns at once; an exception is
remembered, printed as E, and followed by a sleep of
`REQUEST_EXCEPTION_DELAY`. After the loop the last exception is re-raised
(`.error none` models the impossible `raise None` of a zero-retry
configuration). -/
def getRequestGo (attempt : Nat → Except E R) (last_exception : Option E) :
    Nat → Nat → FetchResult E R
  | _, 0 => { result := .error last_exception, attempts := 0, sleeps := [] }
  | i, n + 1 =>
    match attempt i with
    | .ok r => { result := .ok r, attempts := 1, sleeps := [] }
    | .error e =>
      let rest := getRequestGo attempt (some e) (i + 1) n
      { result := rest.result, attempts := rest.attempts + 1,
        sleeps := REQUEST_EXCEPTION_DELAY :: rest.sleeps }

/-- Embedding of `NetworkHandler.get_request`, with the i-th HTTP GET attempt abstracted
as `attempt i`. -/
def get_request (attempt : Nat → Except E R) : FetchResult E R :=
  getRequestGo attempt none 0 NUM_RETRIES

/-- Well-formedness of the term side of the store, guaranteed by the
schema: `term_text` is UNIQUE, `term_id` is the primary key, and the
SERIAL sequence is ahead of every existing id. -/
structure TermsWF (db : DB) : Prop where
  textsNodup : (db.search_terms.map (fun r => r.term_text)).Nodup
  idsNodup : (db.search_terms.map (fun r => r.term_id)).Nodup
  idsLt : ∀ r ∈ db.search_terms, r.term_id < db.next_term_id

/-- The store after recording job `123` (URL `https://x/job/123`) as valid
for the term `python` on a fresh database. -/
def dbPython : DB :=
  { jobs := [{ job_id := 0, job_number := "123",
               job_url := "https://x/job/123" }],
    search_terms := [{ term_id := 0, term_text := "python" }],
    job_search_terms := [{ job_id := 0, term_id := 0, valid := true }],
    next_job_id := 1, next_term_id := 1 }

/-- A store holding job `9` whose page html is already recorded, used to
check that re-recording never blanks a stored value. -/
def dbHtml : DB :=
  { jobs := [{ newJobRow 0 "9" "u9" none with job_html := some "H" }],
    search_terms := [], job_search_terms := [],
    next_job_id := 1, next_term_id := 0 }

/-- The store `dbHtml` after recording job `9` as invalid for the term `rust`. -/
def dbHtml' : DB :=
  { jobs := [{ newJobRow 0 "9" "u9" none with job_html := some "H" }],
    search_terms := [{ term_id := 0, term_text := "rust" }],
    job_search_terms := [{ job_id := 0, term_id := 0, valid := false }],
    next_job_id := 1, next_term_id := 1 }

/-- A fetch oracle whose every request fails to return content. -/
def fetchFail : String → Option Soup := fun _ => none

/-- Driver environment for the concrete runs: term "a" has results on its
first page only, and no interrupt ever arrives. -/
def cfgTwoPages : DriverCfg :=
  { results := fun _ => 1, interrupt := fun _ _ => false }

/-- Driver environment in which a `KeyboardInterrupt` arrives when the
loop is about to fetch page 2 of term "a". -/
def cfgInterruptP2 : DriverCfg :=
  { results := fun _ => 5,
    interrupt := fun t p => t = "a" && p = 2 }
theorem wholeWordSearch_iff (pat s : String) :
    wholeWordSearch pat s = true ↔ OccursWholeWord pat s := by
  unfold wholeWordSearch wholeWordSearchL OccursWholeWord
  rw [List.any_eq_true]
  constructor
  · rintro ⟨i, hi, h⟩
    rw [List.mem_range, Nat.lt_succ_iff] at hi
    simp only [Bool.and_eq_true] at h
    exact ⟨i, hi, h.1.1, h.1.2, h.2⟩
  · rintro ⟨i, hi, h1, h2, h3⟩
    refine ⟨i, ?_, ?_⟩
    · rw [List.mem_range, Nat.lt_succ_iff]; exact hi
    · simp only [Bool.and_eq_true]; exact ⟨⟨h1, h2⟩, h3⟩

/-- C4: on every fetched detail page, validity holds exactly when the
lowercased search term occurs in the lowercased visible text with regex
word boundaries on both sides; in particular "Java" does not validate
against "I know JavaScript" but does against "I know Java well", and the
same boundary rule rejects "C#" inside "Objective-C#". -/
theorem claim_C4_whole_word_validity :
    (∀ (fetch : String → Option Soup) (t url : String) (page : Soup),
       fetch url = some page →
       ((is_valid_link fetch t url).1 = true ↔
         OccursWholeWord (strLower t) (strLower page.visibleText))) ∧
    (is_valid_link (fun _ => some ⟨"I know JavaScript", []⟩) "Java" "u").1
      = false ∧
    (is_valid_link (fun _ => some ⟨"I know Java well", []⟩) "Java" "u").1
      = true ∧
    (is_valid_link (fun _ => some ⟨"loves Objective-C#", []⟩) "C#" "u").1
      = false := by
  refine ⟨?_, by decide, by decide, by decide⟩
  intro fetch t url page hf
  have h1 : (is_valid_link fetch t url).1 =
      wholeWordSearch (strLower t) (strLower page.visibleText) := by
    unfold is_valid_link
    rw [hf]
    cases hv : wholeWordSearch (strLower t) (strLower page.visibleText) <;>
      simp [hv]
  rw [h1, wholeWordSearch_iff]

theorem claim_C4_whole_word_validity_witness :
    ((fun (_ : String) => some (Soup.mk "Need Rust and Python" [])) "u"
        = some (Soup.mk "Need Rust and Python" [])) ∧
    ((is_valid_link (fun _ => some (Soup.mk "Need Rust and Python" []))
        "Rust" "u").1 = true ↔
      OccursWholeWord (strLower "Rust")
        (strLower "Need Rust and Python")) :=
  ⟨rfl, claim_C4_whole_word_validity.1
    (fun _ => some (Soup.mk "Need Rust and Python" [])) "Rust" "u"
    (Soup.mk "Need Rust and Python" []) rfl⟩


theorem getRequestGo_attempts_le {E R : Type} (attempt : Nat → Except E R) :
    ∀ (n i : Nat) (le : Option E),
      (getRequestGo attempt le i n).attempts ≤ n := by
  intro n
  induction n with
  | zero => intro i le; simp [getRequestGo]
  | succ m ih =>
    intro i le
    unfold getRequestGo
    cases h : attempt i with
    | ok r => simp
    | error e => simpa using Nat.succ_le_succ (ih (i + 1) (some e))

theorem getRequestGo_first_success {E R : Type} (attempt : Nat → Except E R)
    (r : R) :
    ∀ (k n i : Nat) (le : Option E), k < n →
      (∀ j, j < k → ∃ e, attempt (i + j) = .error e) →
      attempt (i + k) = .ok r →
      getRequestGo attempt le i n =
        { result := .ok r, attempts := k + 1,
          sleeps := List.replicate k REQUEST_EXCEPTION_DELAY } := by
  intro k
  induction k with
  | zero =>
    intro n i le hn hprev hok
    cases n with
    | zero => omega
    | succ m =>
      unfold getRequestGo
      rw [Nat.add_zero] at hok
      rw [hok]
      simp
  | succ k ih =>
    intro n i le hn hprev hok
    cases n with
    | zero => omega
    | succ m =>
      obtain ⟨e0, he0⟩ := hprev 0 (Nat.succ_pos k)
      rw [Nat.add_zero] at he0
      have step : getRequestGo attempt (some e0) (i + 1) m =
          { result := .ok r, attempts := k + 1,
            sleeps := List.replicate k REQUEST_EXCEPTION_DELAY } := by
        refine ih m (i + 1) (some e0) (by omega) ?_ ?_
        · intro j hj
          obtain ⟨e, he⟩ := hprev (j + 1) (Nat.succ_lt_succ hj)
          exact ⟨e, by rwa [show i + 1 + j = i + (j + 1) by omega]⟩
        · rwa [show i + 1 + k = i + (k + 1) by omega]
      unfold getRequestGo
      rw [he0]
      simp only [step]
      simp [List.replicate_succ]

theorem getRequestGo_all_fail {E R : Type} (attempt : Nat → Except E R)
    (e : E) :
    ∀ (n i : Nat) (le : Option E), 0 < n →
      (∀ j, j < n → ∃ e', attempt (i + j) = .error e') →
      attempt (i + (n - 1)) = .error e →
      getRequestGo attempt le i n =
        { result := .error (some e), attempts := n,
          sleeps := List.replicate n REQUEST_EXCEPTION_DELAY } := by
  intro n
  induction n with
  | zero => intro i le h; omega
  | succ m ih =>
    intro i le _ hall hlast
    obtain ⟨e0, he0⟩ := hall 0 (Nat.succ_pos m)
    rw [Nat.add_zero] at he0
    unfold getRequestGo
    cases m with
    | zero =>
      rw [Nat.add_zero] at hlast
      rw [hlast] at he0
      cases he0
      rw [hlast]
      simp [getRequestGo, List.replicate]
    | succ m' =>
      rw [he0]
      have step := ih (i + 1) (some e0) (Nat.succ_pos m')
        (fun j hj => by
          obtain ⟨e', he'⟩ := hall (j + 1) (Nat.succ_lt_succ hj)
          exact ⟨e', by rwa [show i + 1 + j = i + (j + 1) by omega]⟩)
        (by rwa [show i + 1 + (m' + 1 - 1) = i + (m' + 1 + 1 - 1) by omega])
      simp only [step]
      simp [List.replicate_succ]

/-- C9: `get_request` makes at most `NUM_RETRIES` (4) GET attempts and
returns the first successful response immediately with one
`REQUEST_EXCEPTION_DELAY` (5) sleep per preceding exception; when every
attempt fails it re-raises the last exception after sleeping on each of
the four failures. -/
theorem claim_C9_retry_policy :
    (∀ (E R : Type) (attempt : Nat → Except E R),
       (get_request attempt).attempts ≤ NUM_RETRIES) ∧
    (∀ (E R : Type) (attempt : Nat → Except E R) (k : Nat) (r : R),
       k < NUM_RETRIES →
       (∀ j, j < k → ∃ e, attempt j = .error e) →
       attempt k = .ok r →
       get_request attempt =
         { result := .ok r, attempts := k + 1,
           sleeps := List.replicate k REQUEST_EXCEPTION_DELAY }) ∧
    (∀ (E R : Type) (attempt : Nat → Except E R) (e : E),
       (∀ j, j < NUM_RETRIES → ∃ e', attempt j = .error e') →
       attempt (NUM_RETRIES - 1) = .error e →
       get_request attempt =
         { result := .error (some e), attempts := NUM_RETRIES,
           sleeps := List.replicate NUM_RETRIES REQUEST_EXCEPTION_DELAY }) := by
  refine ⟨?_, ?_, ?_⟩
  · intro E R attempt
    exact getRequestGo_attempts_le attempt NUM_RETRIES 0 none
  · intro E R attempt k r hk hprev hok
    unfold get_request
    exact getRequestGo_first_success attempt r k NUM_RETRIES 0 none hk
      (by simpa using hprev) (by simpa using hok)
  · intro E R attempt e hall hlast
    unfold get_request
    exact getRequestGo_all_fail attempt e NUM_RETRIES 0 none (by decide)
      (by simpa using hall) (by simpa using hlast)

theorem claim_C9_retry_policy_witness :
    get_request (fun i => if i = 0 then Except.error 0 else Except.ok 7) =
      { result := Except.ok 7, attempts := 2,
        sleeps := [REQUEST_EXCEPTION_DELAY] } := by
  have h := claim_C9_retry_policy.2.1 Nat Nat
    (fun i => if i = 0 then Except.error 0 else Except.ok 7) 1 7
    (by decide)
    (fun j hj => ⟨0, by interval_cases j; rfl⟩)
    rfl
  simpa using h

theorem map_self {α : Type} (f : α → α) :
    ∀ l : List α, (∀ x ∈ l, f x = x) → l.map f = l := by
  intro l
  induction l with
  | nil => intro _; rfl
  | cons x xs ih =>
    intro h
    simp only [List.map_cons]
    rw [h x (List.mem_cons_self x xs), ih (fun y hy => h y (List.mem_cons_of_mem x hy))]

theorem lookup_of_all (k : String) (v : Bool) :
    ∀ l : List (String × Bool), (∃ p ∈ l, p.1 = k) →
      (∀ p ∈ l, p.1 = k → p.2 = v) → l.lookup k = some v := by
  intro l
  induction l with
  | nil => rintro ⟨p, hp, _⟩ _; exact absurd hp (List.not_mem_nil p)
  | cons x xs ih =>
    rintro ⟨p, hp, hpk⟩ hall
    rw [List.lookup_cons]
    by_cases hx : x.1 = k
    · have : (k == x.1) = true := by simp [hx]
      rw [this]
      have := hall x (List.mem_cons_self x xs) hx
      simp [this]
    · have hbeq : (k == x.1) = false := by
        simp only [beq_eq_false_iff_ne, ne_eq]
        intro hk; exact hx hk.symm
      rw [hbeq]
      rcases List.mem_cons.mp hp with rfl | hmem
      · exact absurd hpk hx
      · exact ih ⟨p, hmem, hpk⟩ (fun q hq hqk => hall q (List.mem_cons_of_mem x hq) hqk)

theorem dictLookup_of_all (k : String) (v : Bool) (l : List (String × Bool))
    (hex : ∃ p ∈ l, p.1 = k) (hall : ∀ p ∈ l, p.1 = k → p.2 = v) :
    dictLookup l k = some v := by
  unfold dictLookup
  refine lookup_of_all k v l.reverse ?_ ?_
  · obtain ⟨p, hp, hpk⟩ := hex
    exact ⟨p, List.mem_reverse.mpr hp, hpk⟩
  · intro p hp hpk
    exact hall p (List.mem_reverse.mp hp) hpk

theorem upsertAssoc_jobs (db : DB) (a b : Nat) (v : Bool) :
    (upsertAssoc db a b v).jobs = db.jobs := by
  unfold upsertAssoc; split <;> rfl

theorem upsertAssoc_terms (db : DB) (a b : Nat) (v : Bool) :
    (upsertAssoc db a b v).search_terms = db.search_terms := by
  unfold upsertAssoc; split <;> rfl

theorem insertTerm_jobs (db : DB) (t : String) :
    (insertTerm db t).jobs = db.jobs := by
  unfold insertTerm; split <;> rfl

theorem insertTerm_jst (db : DB) (t : String) :
    (insertTerm db t).job_search_terms = db.job_search_terms := by
  unfold insertTerm; split <;> rfl

theorem insertTerm_of_any (db : DB) (t : String)
    (h : (db.search_terms.any fun r => r.term_text = t) = true) :
    insertTerm db t = db := by
  unfold insertTerm; rw [if_pos h]

theorem insertTerm_any (db : DB) (t : String) :
    ((insertTerm db t).search_terms.any fun r => r.term_text = t) = true := by
  unfold insertTerm
  split
  · assumption
  · simp

theorem upsertAssoc_mem (db : DB) (a b : Nat) (v : Bool) :
    ∃ e ∈ (upsertAssoc db a b v).job_search_terms,
      e.job_id = a ∧ e.term_id = b ∧ e.valid = v := by
  unfold upsertAssoc
  split
  · rename_i h
    rw [List.any_eq_true] at h
    obtain ⟨x, hx, hpx⟩ := h
    simp only [Bool.and_eq_true, decide_eq_true_eq] at hpx
    refine ⟨{ x with valid := v }, ?_, hpx.1, hpx.2, rfl⟩
    simp only []
    refine List.mem_map.mpr ⟨x, hx, ?_⟩
    rw [if_pos]
    simp [hpx.1, hpx.2]
  · exact ⟨{ job_id := a, term_id := b, valid := v }, by simp, rfl, rfl, rfl⟩

theorem upsertAssoc_all (db : DB) (a b : Nat) (v : Bool) :
    ∀ e ∈ (upsertAssoc db a b v).job_search_terms,
      e.job_id = a → e.term_id = b → e.valid = v := by
  unfold upsertAssoc
  split
  · rename_i h
    intro e he hea heb
    simp only [] at he
    obtain ⟨x, hx, rfl⟩ := List.mem_map.mp he
    by_cases hm : (x.job_id = a && x.term_id = b) = true
    · rw [if_pos hm]
    · rw [if_neg hm] at hea heb ⊢
      exact absurd (by simp [hea, heb]) hm
  · rename_i h
    intro e he hea heb
    rcases List.mem_append.mp he with hmem | hmem
    · exfalso
      apply h
      rw [List.any_eq_true]
      exact ⟨e, hmem, by simp [hea, heb]⟩
    · simp only [List.mem_singleton] at hmem
      rw [hmem]

theorem upsertAssoc_any (db : DB) (a b : Nat) (v : Bool) :
    ((upsertAssoc db a b v).job_search_terms.any
      fun e => e.job_id = a && e.term_id = b) = true := by
  obtain ⟨e, he, h1, h2, _⟩ := upsertAssoc_mem db a b v
  rw [List.any_eq_true]
  exact ⟨e, he, by simp [h1, h2]⟩

theorem upsertAssoc_self (D : DB) (a b : Nat) (v : Bool)
    (hany : (D.job_search_terms.any
      fun e => e.job_id = a && e.term_id = b) = true)
    (hall : ∀ e ∈ D.job_search_terms,
      e.job_id = a → e.term_id = b → e.valid = v) :
    upsertAssoc D a b v = D := by
  unfold upsertAssoc
  rw [if_pos hany]
  have hmap : (D.job_search_terms.map fun e =>
      if e.job_id = a && e.term_id = b then { e with valid := v } else e) =
      D.job_search_terms := by
    refine map_self _ _ ?_
    intro e he
    by_cases hm : (e.job_id = a && e.term_id = b) = true
    · rw [if_pos hm]
      simp only [Bool.and_eq_true, decide_eq_true_eq] at hm
      rw [← hall e he hm.1 hm.2]
    · rw [if_neg hm]
  rw [hmap]

theorem upsertAssoc_idem (db : DB) (a b : Nat) (v : Bool) :
    upsertAssoc (upsertAssoc db a b v) a b v = upsertAssoc db a b v :=
  upsertAssoc_self _ a b v (upsertAssoc_any db a b v) (upsertAssoc_all db a b v)

theorem finishLink_ok {db1 db' : DB} {t j : String} {v : Bool}
    (h : finishLink db1 t j v = .ok db') :
    ∃ jrow trow, findJob (insertTerm db1 t) j = some jrow ∧
      findTerm (insertTerm db1 t) t = some trow ∧
      db' = upsertAssoc (insertTerm db1 t) jrow.job_id trow.term_id v := by
  simp only [finishLink] at h
  cases hj : findJob (insertTerm db1 t) j with
  | none => rw [hj] at h; cases hjt : findTerm (insertTerm db1 t) t <;>
      rw [hjt] at h <;> cases h
  | some jrow =>
    cases hjt : findTerm (insertTerm db1 t) t with
    | none => rw [hj, hjt] at h; cases h
    | some trow =>
      rw [hj, hjt] at h
      cases h
      exact ⟨jrow, trow, rfl, rfl, rfl⟩

theorem finishLink_jobs {db1 db' : DB} {t j : String} {v : Bool}
    (h : finishLink db1 t j v = .ok db') : db'.jobs = db1.jobs := by
  obtain ⟨jrow, trow, _, _, rfl⟩ := finishLink_ok h
  rw [upsertAssoc_jobs, insertTerm_jobs]

theorem finishLink_idem {db1 db' : DB} {t j : String} {v : Bool}
    (h : finishLink db1 t j v = .ok db') : finishLink db' t j v = .ok db' := by
  obtain ⟨jrow, trow, hj, ht, rfl⟩ := finishLink_ok h
  have hterm_any : ((upsertAssoc (insertTerm db1 t) jrow.job_id trow.term_id
      v).search_terms.any fun r => r.term_text = t) = true := by
    rw [upsertAssoc_terms]
    exact insertTerm_any db1 t
  simp only [finishLink]
  rw [insertTerm_of_any _ _ hterm_any]
  have h1 : findJob (upsertAssoc (insertTerm db1 t) jrow.job_id trow.term_id v)
      j = some jrow := by
    unfold findJob
    rw [upsertAssoc_jobs]
    exact hj
  have h2 : findTerm (upsertAssoc (insertTerm db1 t) jrow.job_id trow.term_id
      v) t = some trow := by
    unfold findTerm
    rw [upsertAssoc_terms]
    exact ht
  rw [h1, h2]
  exact congrArg Except.ok (upsertAssoc_idem _ _ _ _)

theorem upsertJobPlain_of_any {db : DB} {j u : String}
    (h : (db.jobs.any fun r => r.job_number = j) = true) :
    upsertJobPlain db j u = .ok db := by
  unfold upsertJobPlain
  rw [if_pos h]

theorem upsertJobPlain_ok_any {db db1 : DB} {j u : String}
    (h : upsertJobPlain db j u = .ok db1) :
    (db1.jobs.any fun r => r.job_number = j) = true := by
  unfold upsertJobPlain at h
  split at h
  · cases h
    assumption
  · split at h
    · cases h
    · cases h
      simp

theorem upsertJobPlain_terms {db db1 : DB} {j u : String}
    (h : upsertJobPlain db j u = .ok db1) :
    db1.search_terms = db.search_terms ∧ db1.next_term_id = db.next_term_id ∧
      db1.job_search_terms = db.job_search_terms := by
  unfold upsertJobPlain at h
  split at h
  · cases h; exact ⟨rfl, rfl, rfl⟩
  · split at h
    · cases h
    · cases h; exact ⟨rfl, rfl, rfl⟩

theorem upsertJobHtml_ok_any {db db1 : DB} {j u s : String}
    (h : upsertJobHtml db j u s = .ok db1) :
    (db1.jobs.any fun r => r.job_number = j) = true := by
  unfold upsertJobHtml at h
  split at h
  · rename_i hex
    cases h
    simp only [List.any_map, List.any_eq_true] at hex ⊢
    obtain ⟨x, hx, hpx⟩ := hex
    refine ⟨x, hx, ?_⟩
    simp only [Function.comp_apply, decide_eq_true_eq] at hpx ⊢
    rw [if_pos (by simp [hpx])]
    exact hpx
  · split at h
    · cases h
    · cases h
      simp

theorem upsertJobHtml_terms {db db1 : DB} {j u s : String}
    (h : upsertJobHtml db j u s = .ok db1) :
    db1.search_terms = db.search_terms ∧ db1.next_term_id = db.next_term_id ∧
      db1.job_search_terms = db.job_search_terms := by
  unfold upsertJobHtml at h
  split at h
  · cases h; exact ⟨rfl, rfl, rfl⟩
  · split at h
    · cases h
    · cases h; exact ⟨rfl, rfl, rfl⟩

theorem upsertJobHtml_ok_htmlSome {db db1 : DB} {j u s : String}
    (h : upsertJobHtml db j u s = .ok db1) :
    ∀ r ∈ db1.jobs, r.job_number = j → r.job_html.isSome = true := by
  unfold upsertJobHtml at h
  split at h
  · cases h
    intro r hr hrj
    simp only [List.mem_map] at hr
    obtain ⟨x, hx, rfl⟩ := hr
    by_cases hm : (x.job_number = j)
    · rw [if_pos (by simp [hm])]
      cases hxh : x.job_html <;> simp [Option.orElse, hxh]
    · rw [if_neg (by simp [hm])] at hrj ⊢
      exact absurd hrj hm
  · rename_i hnone
    split at h
    · cases h
    · cases h
      intro r hr hrj
      rcases List.mem_append.mp hr with hmem | hmem
      · exfalso
        apply hnone
        rw [List.any_eq_true]
        exact ⟨r, hmem, by simp [hrj]⟩
      · simp only [List.mem_singleton] at hmem
        rw [hmem]
        rfl

theorem upsertJobHtml_self {db1 : DB} {j u s : String}
    (hany : (db1.jobs.any fun r => r.job_number = j) = true)
    (hsome : ∀ r ∈ db1.jobs, r.job_number = j → r.job_html.isSome = true) :
    upsertJobHtml db1 j u s = .ok db1 := by
  unfold upsertJobHtml
  rw [if_pos hany]
  have hmap : (db1.jobs.map fun r =>
      if r.job_number = j then
        { r with job_html := r.job_html.orElse (fun _ => some s) }
      else r) = db1.jobs := by
    refine map_self _ _ ?_
    intro r hr
    by_cases hm : (r.job_number = j)
    · rw [if_pos (by simp [hm])]
      have := hsome r hr hm
      cases hxh : r.job_html with
      | none => rw [hxh] at this; cases this
      | some a =>
        rw [show ((some a : Option String).orElse fun _ => some s)
            = some a from rfl, ← hxh]
    · rw [if_neg (by simp [hm])]
  rw [hmap]

/-- C2: recording the same link outcome twice through
`JobData.add_new_link` leaves the store exactly as after the first call:
the second call succeeds and returns the same state, so no duplicate row
appears in `jobs`, `search_terms` or `job_search_terms` and no stored
value changes. -/
theorem claim_C2_record_outcome_idempotent :
    ∀ (db db' : DB) (t u j : String) (st : LinkStatus) (html : Option String),
      add_new_link db t u j st html = .ok db' →
      add_new_link db' t u j st html = .ok db' := by
  intro db db' t u j st html h
  simp only [add_new_link] at h ⊢
  by_cases hb : (st.isValid && pyTruthy html) = true
  · rw [if_pos hb] at h ⊢
    cases hs : upsertJobHtml db j u (html.getD "") with
    | error e =>
      rw [hs] at h
      simp only [Except.bind] at h
      exact (Except.noConfusion h)
    | ok db1 =>
      rw [hs] at h
      simp only [Except.bind] at h
      have hjobs : db'.jobs = db1.jobs := finishLink_jobs h
      have hany' : (db'.jobs.any fun r => r.job_number = j) = true := by
        rw [hjobs]; exact upsertJobHtml_ok_any hs
      have hsome' : ∀ r ∈ db'.jobs, r.job_number = j →
          r.job_html.isSome = true := by
        rw [hjobs]; exact upsertJobHtml_ok_htmlSome hs
      rw [upsertJobHtml_self hany' hsome']
      simp only [Except.bind]
      exact finishLink_idem h
  · rw [if_neg hb] at h ⊢
    cases hs : upsertJobPlain db j u with
    | error e =>
      rw [hs] at h
      simp only [Except.bind] at h
      exact (Except.noConfusion h)
    | ok db1 =>
      rw [hs] at h
      simp only [Except.bind] at h
      have hjobs : db'.jobs = db1.jobs := finishLink_jobs h
      have hany' : (db'.jobs.any fun r => r.job_number = j) = true := by
        rw [hjobs]; exact upsertJobPlain_ok_any hs
      rw [upsertJobPlain_of_any hany']
      simp only [Except.bind]
      exact finishLink_idem h

theorem claim_C2_record_outcome_idempotent_witness :
    add_new_link emptyDB "python" "https://x/job/123" "123"
        LinkStatus.VALID none = .ok dbPython ∧
    add_new_link dbPython "python" "https://x/job/123" "123"
        LinkStatus.VALID none = .ok dbPython :=
  ⟨by decide,
    claim_C2_record_outcome_idempotent emptyDB dbPython "python"
      "https://x/job/123" "123" LinkStatus.VALID none (by decide)⟩

theorem find?_unique {α : Type} (p : α → Bool) (l : List α) (r : α)
    (hr : r ∈ l) (hp : p r = true)
    (uniq : ∀ x ∈ l, p x = true → x = r) : l.find? p = some r := by
  have hsome : (l.find? p).isSome = true := by
    rw [List.find?_isSome]
    exact ⟨r, hr, hp⟩
  obtain ⟨x, hx⟩ := Option.isSome_iff_exists.mp hsome
  have hxl : x ∈ l := List.mem_of_find?_eq_some hx
  have hpx : p x = true := List.find?_some hx
  rw [hx, uniq x hxl hpx]

theorem termsWF_of_eq {db db1 : DB}
    (hterms : db1.search_terms = db.search_terms)
    (hnext : db1.next_term_id = db.next_term_id)
    (h : TermsWF db) : TermsWF db1 := by
  constructor
  · rw [hterms]; exact h.textsNodup
  · rw [hterms]; exact h.idsNodup
  · rw [hterms, hnext]; exact h.idsLt

theorem insertTerm_wf {db : DB} (t : String) (h : TermsWF db) :
    TermsWF (insertTerm db t) := by
  unfold insertTerm
  split
  · exact h
  · rename_i hnot
    have htnot : ∀ r ∈ db.search_terms, ¬(r.term_text = t) := by
      intro r hr hrt
      exact hnot (List.any_eq_true.mpr ⟨r, hr, by simp [hrt]⟩)
    constructor
    · simp only [List.map_append, List.map_cons, List.map_nil]
      rw [List.nodup_append]
      refine ⟨h.textsNodup, List.nodup_singleton _, ?_⟩
      intro x hx
      simp only [List.mem_singleton]
      obtain ⟨r, hr, rfl⟩ := List.mem_map.mp hx
      intro hxt
      exact htnot r hr hxt
    · simp only [List.map_append, List.map_cons, List.map_nil]
      rw [List.nodup_append]
      refine ⟨h.idsNodup, List.nodup_singleton _, ?_⟩
      intro x hx
      simp only [List.mem_singleton]
      obtain ⟨r, hr, rfl⟩ := List.mem_map.mp hx
      intro hxid
      exact absurd (hxid ▸ h.idsLt r hr) (lt_irrefl _)
    · intro r hr
      rcases List.mem_append.mp hr with hmem | hmem
      · exact Nat.lt_succ_of_lt (h.idsLt r hmem)
      · simp only [List.mem_singleton] at hmem
        rw [hmem]
        exact Nat.lt_succ_self _

theorem lookup_after_finish {db1 db' : DB} {t j : String} {v : Bool}
    (hWF : TermsWF db1) (h : finishLink db1 t j v = .ok db') :
    dictLookup (get_search_terms_and_validities db' j) t = some v := by
  obtain ⟨jrow, trow, hj, ht, rfl⟩ := finishLink_ok h
  have hWF2 : TermsWF (insertTerm db1 t) := insertTerm_wf t hWF
  have htrow_mem : trow ∈ (insertTerm db1 t).search_terms :=
    List.mem_of_find?_eq_some ht
  have htrow_text : trow.term_text = t := by
    have := List.find?_some ht
    simpa using this
  have hfj : findJob
      (upsertAssoc (insertTerm db1 t) jrow.job_id trow.term_id v) j
      = some jrow := by
    unfold findJob
    rw [upsertAssoc_jobs]
    exact hj
  have htermsEq : (upsertAssoc (insertTerm db1 t) jrow.job_id trow.term_id
      v).search_terms = (insertTerm db1 t).search_terms :=
    upsertAssoc_terms _ _ _ _
  have hbyid : findTermById
      (upsertAssoc (insertTerm db1 t) jrow.job_id trow.term_id v)
      trow.term_id = some trow := by
    unfold findTermById
    rw [htermsEq]
    refine find?_unique _ _ trow htrow_mem (by simp) ?_
    intro x hx hpx
    simp only [decide_eq_true_eq] at hpx
    exact List.inj_on_of_nodup_map hWF2.idsNodup hx htrow_mem hpx
  unfold get_search_terms_and_validities
  rw [hfj]
  apply dictLookup_of_all
  · obtain ⟨e, he, he1, he2, he3⟩ :=
      upsertAssoc_mem (insertTerm db1 t) jrow.job_id trow.term_id v
    refine ⟨(trow.term_text, e.valid), List.mem_filterMap.mpr ⟨e, he, ?_⟩,
      by simpa using htrow_text⟩
    rw [if_pos he1, he2, hbyid]
    rfl
  · intro p hp hpt
    obtain ⟨e, he, hfe⟩ := List.mem_filterMap.mp hp
    by_cases hm : e.job_id = jrow.job_id
    · rw [if_pos hm] at hfe
      cases htr : findTermById
          (upsertAssoc (insertTerm db1 t) jrow.job_id trow.term_id v)
          e.term_id with
      | none => rw [htr] at hfe; cases hfe
      | some tr =>
        rw [htr] at hfe
        simp only [Option.map_some'] at hfe
        injection hfe with hfe'
        subst hfe'
        have htr_mem : tr ∈ (insertTerm db1 t).search_terms := by
          unfold findTermById at htr
          rw [htermsEq] at htr
          exact List.mem_of_find?_eq_some htr
        have htr_id : tr.term_id = e.term_id := by
          have := List.find?_some (by
            unfold findTermById at htr
            rw [htermsEq] at htr
            exact htr)
          simpa using this
        have htr_text : tr.term_text = t := hpt
        have htr_eq : tr = trow := by
          refine List.inj_on_of_nodup_map hWF2.textsNodup htr_mem
            htrow_mem ?_
          rw [htr_text, htrow_text]
        have heid : e.term_id = trow.term_id := by
          rw [← htr_id, htr_eq]
        exact upsertAssoc_all (insertTerm db1 t) jrow.job_id trow.term_id v
          e he hm heid
    · rw [if_neg hm] at hfe
      cases hfe

/-- C7: immediately after `JobData.add_new_link` records validity `v` for
job `j` and term `t`, `JobData.get_search_terms_and_validities j` maps `t`
to `v`; the store state is arbitrary, so this covers overwriting an
existing (j, t) association with the newest determination. -/
theorem claim_C7_lookup_after_record :
    ∀ (db db' : DB) (t u j : String) (st : LinkStatus)
      (html : Option String),
      TermsWF db →
      add_new_link db t u j st html = .ok db' →
      dictLookup (get_search_terms_and_validities db' j) t
        = some st.isValid := by
  intro db db' t u j st html hWF h
  simp only [add_new_link] at h
  by_cases hb : (st.isValid && pyTruthy html) = true
  · rw [if_pos hb] at h
    cases hs : upsertJobHtml db j u (html.getD "") with
    | error e =>
      rw [hs] at h
      simp only [Except.bind] at h
      exact (Except.noConfusion h)
    | ok db1 =>
      rw [hs] at h
      simp only [Except.bind] at h
      obtain ⟨ht1, ht2, _⟩ := upsertJobHtml_terms hs
      exact lookup_after_finish (termsWF_of_eq ht1 ht2 hWF) h
  · rw [if_neg hb] at h
    cases hs : upsertJobPlain db j u with
    | error e =>
      rw [hs] at h
      simp only [Except.bind] at h
      exact (Except.noConfusion h)
    | ok db1 =>
      rw [hs] at h
      simp only [Except.bind] at h
      obtain ⟨ht1, ht2, _⟩ := upsertJobPlain_terms hs
      exact lookup_after_finish (termsWF_of_eq ht1 ht2 hWF) h

theorem claim_C7_lookup_after_record_witness :
    TermsWF emptyDB ∧
    dictLookup (get_search_terms_and_validities dbPython "123") "python"
      = some true :=
  ⟨⟨by simp [emptyDB], by simp [emptyDB], by simp [emptyDB]⟩,
    claim_C7_lookup_after_record emptyDB dbPython "python"
      "https://x/job/123" "123" LinkStatus.VALID none
      ⟨by simp [emptyDB], by simp [emptyDB], by simp [emptyDB]⟩
      (by decide)⟩

/-- C1: `process_link_url` takes the job identifier from the URL's last
path segment and short-circuits to a SKIPPED outcome, with no network
fetch, exactly when the store already associates that (job, term) pair
(printing X for stored-valid and x for stored-invalid); an unrecorded pair
takes the NEW path: the page is fetched and the outcome follows the
validation, as in the spec's scenario of job 123 stored only for "python"
being fetched anew for "rust". -/
theorem claim_C1_skip_iff_recorded :
    (∀ (fetch : String → Option Soup) (today : Int) (db : DB)
       (url t : String) (v : Bool),
       dictLookup (get_search_terms_and_validities db
         (extract_job_number_from_url url)) t = some v →
       process_link_url fetch today db url t =
         { outcome := if v then .SKIPPED_VALID else .SKIPPED_INVALID,
           db := .ok db, fetched := false }) ∧
    (∀ (fetch : String → Option Soup) (today : Int) (db : DB)
       (url t : String),
       dictLookup (get_search_terms_and_validities db
         (extract_job_number_from_url url)) t = none →
       (process_link_url fetch today db url t).fetched = true ∧
       (process_link_url fetch today db url t).outcome =
         (if (is_valid_link fetch t url).1 then .NEW_VALID
          else .NEW_INVALID)) ∧
    ((process_link_url fetchFail 0 dbPython "https://x/job/123"
        "rust").fetched = true ∧
     (process_link_url fetchFail 0 dbPython "https://x/job/123"
        "rust").outcome = .NEW_INVALID ∧
     (process_link_url fetchFail 0 dbPython "https://x/job/123"
        "python").outcome = .SKIPPED_VALID) := by
  refine ⟨?_, ?_, by decide⟩
  · intro fetch today db url t v h
    simp only [process_link_url]
    rw [h]
  · intro fetch today db url t h
    simp only [process_link_url]
    rw [h]
    exact ⟨rfl, rfl⟩

theorem claim_C1_skip_iff_recorded_witness :
    dictLookup (get_search_terms_and_validities dbPython
      (extract_job_number_from_url "https://x/job/123")) "python"
        = some true ∧
    process_link_url fetchFail 0 dbPython "https://x/job/123" "python" =
      { outcome := .SKIPPED_VALID, db := .ok dbPython, fetched := false } :=
  ⟨by decide,
    claim_C1_skip_iff_recorded.1 fetchFail 0 dbPython "https://x/job/123"
      "python" true (by decide)⟩

/-- C10: when the (job, term) pair of the URL is already recorded,
`process_link_url` performs no write at all: the store it leaves behind is
exactly the store it was given, and no fetch happens — the skip path only
reads the store and prints a symbol. -/
theorem claim_C10_skip_path_frame :
    ∀ (fetch : String → Option Soup) (today : Int) (db : DB)
      (url t : String) (v : Bool),
      dictLookup (get_search_terms_and_validities db
        (extract_job_number_from_url url)) t = some v →
      (process_link_url fetch today db url t).db = .ok db ∧
      (process_link_url fetch today db url t).fetched = false := by
  intro fetch today db url t v h
  simp only [process_link_url]
  rw [h]
  exact ⟨rfl, rfl⟩

theorem claim_C10_skip_path_frame_witness :
    dictLookup (get_search_terms_and_validities dbPython
      (extract_job_number_from_url "https://x/job/123")) "python"
        = some true ∧
    (process_link_url (fun _ => some (Soup.mk "python inside" [])) 0
      dbPython "https://x/job/123" "python").db = .ok dbPython ∧
    (process_link_url (fun _ => some (Soup.mk "python inside" [])) 0
      dbPython "https://x/job/123" "python").fetched = false := by
  have h := claim_C10_skip_path_frame
    (fun _ => some (Soup.mk "python inside" [])) 0 dbPython
    "https://x/job/123" "python" true (by decide)
  exact ⟨by decide, h.1, h.2⟩

theorem finishLink_succeeds {db1 : DB} (t j : String) (v : Bool)
    (hjob : (db1.jobs.any fun r => r.job_number = j) = true) :
    ∃ db', finishLink db1 t j v = .ok db' := by
  simp only [finishLink]
  have h1 : (findJob (insertTerm db1 t) j).isSome = true := by
    unfold findJob
    rw [insertTerm_jobs, List.find?_isSome]
    rw [List.any_eq_true] at hjob
    exact hjob
  have h2 : (findTerm (insertTerm db1 t) t).isSome = true := by
    unfold findTerm
    rw [List.find?_isSome]
    have h := insertTerm_any db1 t
    rw [List.any_eq_true] at h
    exact h
  obtain ⟨jrow, hj⟩ := Option.isSome_iff_exists.mp h1
  obtain ⟨trow, htr⟩ := Option.isSome_iff_exists.mp h2
  rw [hj, htr]
  exact ⟨_, rfl⟩

/-- C5: when the detail-page fetch returns no content, classification does
not raise: `is_valid_link` reports invalid with no job age, and
`process_link_url` records the (job, term) association as invalid,
creating a job row whose posting date and auxiliary fields are all null
(the stated row carries the structure defaults: every optional column
`none`). -/
theorem claim_C5_failed_fetch_soft :
    ∀ (fetch : String → Option Soup) (today : Int) (db : DB)
      (url t : String),
      fetch url = none →
      TermsWF db →
      dictLookup (get_search_terms_and_validities db
        (extract_job_number_from_url url)) t = none →
      (db.jobs.any fun r =>
        r.job_number = extract_job_number_from_url url) = false →
      (db.jobs.any fun r => r.job_url = url) = false →
      is_valid_link fetch t url = (false, none) ∧
      (process_link_url fetch today db url t).outcome = .NEW_INVALID ∧
      ∃ db', (process_link_url fetch today db url t).db = .ok db' ∧
        findJob db' (extract_job_number_from_url url) =
          some { job_id := db.next_job_id,
                 job_number := extract_job_number_from_url url,
                 job_url := url } ∧
        dictLookup (get_search_terms_and_validities db'
          (extract_job_number_from_url url)) t = some false := by
  intro fetch today db url t hf hWF hnone hnoj hnou
  have hvl : is_valid_link fetch t url = (false, none) := by
    simp only [is_valid_link]
    rw [hf]
  have hstep : add_or_update_link db t url (extract_job_number_from_url url)
      none LinkStatus.INVALID =
      finishLink { db with
        jobs := db.jobs ++
          [newJobRow db.next_job_id (extract_job_number_from_url url) url none],
        next_job_id := db.next_job_id + 1 } t
        (extract_job_number_from_url url) false := by
    simp only [add_or_update_link, hnoj, hnou, Bool.false_eq_true,
      if_false, Except.bind]
    rfl
  have hjob1 : (({ db with
      jobs := db.jobs ++
        [newJobRow db.next_job_id (extract_job_number_from_url url) url none],
      next_job_id := db.next_job_id + 1 } : DB).jobs.any fun r =>
        r.job_number = extract_job_number_from_url url) = true := by
    simp [newJobRow]
  obtain ⟨db', hdb'⟩ := finishLink_succeeds t
    (extract_job_number_from_url url) false hjob1
  have hprocdb : (process_link_url fetch today db url t).db = .ok db' := by
    simp only [process_link_url]
    rw [hnone]
    simp only [hvl, Option.map_none', Bool.false_eq_true, if_false]
    rw [hstep, hdb']
  refine ⟨hvl, ?_, db', hprocdb, ?_, ?_⟩
  · simp only [process_link_url]
    rw [hnone]
    simp only [hvl, Bool.false_eq_true, if_false]
  · have hjobs : db'.jobs = db.jobs ++
        [newJobRow db.next_job_id (extract_job_number_from_url url) url none] :=
      finishLink_jobs hdb'
    unfold findJob
    rw [hjobs, List.find?_append]
    have hnf : (db.jobs.find? fun r =>
        r.job_number = extract_job_number_from_url url) = none := by
      rw [List.find?_eq_none]
      intro x hx hpx
      rw [List.any_eq_false] at hnoj
      exact absurd hpx (by simpa using hnoj x hx)
    rw [hnf]
    simp [newJobRow]
  · refine lookup_after_finish ?_ hdb'
    refine termsWF_of_eq ?_ ?_ hWF <;> rfl

theorem claim_C5_failed_fetch_soft_witness :
    ((fetchFail "https://x/job/77" = none) ∧
     (emptyDB.jobs.any fun r =>
       r.job_number = extract_job_number_from_url "https://x/job/77")
         = false) ∧
    (process_link_url fetchFail 0 emptyDB "https://x/job/77" "rust").outcome
      = .NEW_INVALID := by
  have h := claim_C5_failed_fetch_soft fetchFail 0 emptyDB
    "https://x/job/77" "rust" rfl
    ⟨by simp [emptyDB], by simp [emptyDB], by simp [emptyDB]⟩
    (by decide) (by decide) (by decide)
  exact ⟨⟨rfl, by decide⟩, h.2.1⟩

theorem upsertJobPlain_preserves {db db1 : DB} {j u j0 : String}
    {r : JobRow} {h0 : String}
    (h : upsertJobPlain db j u = .ok db1)
    (hr : findJob db j0 = some r) (hh : r.job_html = some h0) :
    ∃ r', findJob db1 j0 = some r' ∧ r'.job_html = some h0 := by
  unfold upsertJobPlain at h
  split at h
  · cases h
    exact ⟨r, hr, hh⟩
  · split at h
    · cases h
    · cases h
      refine ⟨r, ?_, hh⟩
      unfold findJob at hr ⊢
      simp only [List.find?_append, hr]
      rfl

theorem upsertJobHtml_preserves {db db1 : DB} {j u s j0 : String}
    {r : JobRow} {h0 : String}
    (h : upsertJobHtml db j u s = .ok db1)
    (hr : findJob db j0 = some r) (hh : r.job_html = some h0) :
    ∃ r', findJob db1 j0 = some r' ∧ r'.job_html = some h0 := by
  unfold upsertJobHtml at h
  split at h
  · cases h
    have hcm : ((fun x : JobRow => decide (x.job_number = j0)) ∘
        fun x : JobRow =>
        if x.job_number = j then
          { x with job_html := x.job_html.orElse fun _ => some s }
        else x) = fun x : JobRow => decide (x.job_number = j0) := by
      funext x
      by_cases hm : (x.job_number = j)
      · simp [hm]
      · simp [hm]
    refine ⟨if r.job_number = j then
        { r with job_html := r.job_html.orElse fun _ => some s }
      else r, ?_, ?_⟩
    · unfold findJob at hr ⊢
      simp only [List.find?_map, hcm, hr, Option.map_some']
    · by_cases hm : (r.job_number = j)
      · rw [if_pos hm]
        show r.job_html.orElse (fun _ => some s) = some h0
        rw [hh]
        rfl
      · rw [if_neg hm]
        exact hh
  · split at h
    · cases h
    · cases h
      refine ⟨r, ?_, hh⟩
      unfold findJob at hr ⊢
      simp only [List.find?_append, hr]
      rfl

/-- C6: stored values are never blanked. A `jobs` row whose `job_html` is
set keeps that exact value across any further `add_new_link` (the COALESCE
upsert fills it only when NULL and the plain upsert is DO NOTHING), and
the maintenance pass of `update_main_fields.py` reassigns position,
advertiser, location and work type only on a truthy (hence non-null)
extraction, leaving each stored field unchanged when the new extraction is
null. -/
theorem claim_C6_monotone_fields :
    (∀ (db db' : DB) (t u j j0 : String) (st : LinkStatus)
       (html : Option String) (r : JobRow) (h0 : String),
       add_new_link db t u j st html = .ok db' →
       findJob db j0 = some r →
       r.job_html = some h0 →
       ∃ r', findJob db' j0 = some r' ∧ r'.job_html = some h0) ∧
    (∀ (jf : JobFields) (p a l w : Option String),
       (p = none → (updateMainFields jf p a l w).position = jf.position) ∧
       (a = none → (updateMainFields jf p a l w).advertiser = jf.advertiser) ∧
       (l = none → (updateMainFields jf p a l w).location = jf.location) ∧
       (w = none → (updateMainFields jf p a l w).work_type = jf.work_type) ∧
       (jf.position.isSome = true →
         (updateMainFields jf p a l w).position.isSome = true) ∧
       (jf.advertiser.isSome = true →
         (updateMainFields jf p a l w).advertiser.isSome = true) ∧
       (jf.location.isSome = true →
         (updateMainFields jf p a l w).location.isSome = true) ∧
       (jf.work_type.isSome = true →
         (updateMainFields jf p a l w).work_type.isSome = true)) := by
  constructor
  · intro db db' t u j j0 st html r h0 h hr hh
    simp only [add_new_link] at h
    by_cases hb : (st.isValid && pyTruthy html) = true
    · rw [if_pos hb] at h
      cases hs : upsertJobHtml db j u (html.getD "") with
      | error e =>
        rw [hs] at h
        simp only [Except.bind] at h
        exact (Except.noConfusion h)
      | ok db1 =>
        rw [hs] at h
        simp only [Except.bind] at h
        obtain ⟨r', hr', hh'⟩ := upsertJobHtml_preserves hs hr hh
        refine ⟨r', ?_, hh'⟩
        unfold findJob at hr' ⊢
        rw [finishLink_jobs h]
        exact hr'
    · rw [if_neg hb] at h
      cases hs : upsertJobPlain db j u with
      | error e =>
        rw [hs] at h
        simp only [Except.bind] at h
        exact (Except.noConfusion h)
      | ok db1 =>
        rw [hs] at h
        simp only [Except.bind] at h
        obtain ⟨r', hr', hh'⟩ := upsertJobPlain_preserves hs hr hh
        refine ⟨r', ?_, hh'⟩
        unfold findJob at hr' ⊢
        rw [finishLink_jobs h]
        exact hr'
  · intro jf p a l w
    refine ⟨?_, ?_, ?_, ?_, ?_, ?_, ?_, ?_⟩ <;>
      simp only [updateMainFields]
    · rintro rfl; simp [pyTruthy]
    · rintro rfl; simp [pyTruthy]
    · rintro rfl; simp [pyTruthy]
    · rintro rfl; simp [pyTruthy]
    · intro hs
      by_cases hp : pyTruthy p = true
      · rw [if_pos hp]
        cases p with
        | none => simp [pyTruthy] at hp
        | some s => rfl
      · rw [if_neg hp]; exact hs
    · intro hs
      by_cases hp : pyTruthy a = true
      · rw [if_pos hp]
        cases a with
        | none => simp [pyTruthy] at hp
        | some s => rfl
      · rw [if_neg hp]; exact hs
    · intro hs
      by_cases hp : pyTruthy l = true
      · rw [if_pos hp]
        cases l with
        | none => simp [pyTruthy] at hp
        | some s => rfl
      · rw [if_neg hp]; exact hs
    · intro hs
      by_cases hp : pyTruthy w = true
      · rw [if_pos hp]
        cases w with
        | none => simp [pyTruthy] at hp
        | some s => rfl
      · rw [if_neg hp]; exact hs

theorem claim_C6_monotone_fields_witness :
    (add_new_link dbHtml "rust" "u9" "9" LinkStatus.INVALID none
        = .ok dbHtml') ∧
    (∃ r', findJob dbHtml' "9" = some r' ∧ r'.job_html = some "H") ∧
    (updateMainFields
      { position := some "Engineer", advertiser := none, location := none,
        work_type := none } none none none none).position
        = some "Engineer" := by
  refine ⟨by decide, ?_, ?_⟩
  · exact claim_C6_monotone_fields.1 dbHtml dbHtml' "rust" "u9" "9" "9"
      LinkStatus.INVALID none
      { newJobRow 0 "9" "u9" none with job_html := some "H" } "H"
      (by decide) (by decide) (by decide)
  · exact (claim_C6_monotone_fields.2
      { position := some "Engineer", advertiser := none, location := none,
        work_type := none } none none none none).1 rfl

theorem pagesFrom_stop {cfg : DriverCfg} {t : String} {p : Nat}
    (h : ¬ p ≤ cfg.results t) : pagesFrom cfg t p = [p] := by
  unfold pagesFrom
  rw [if_neg h]

theorem pagesFrom_cons {cfg : DriverCfg} {t : String} {p : Nat}
    (h : p ≤ cfg.results t) :
    pagesFrom cfg t p = p :: pagesFrom cfg t (p + 1) := by
  unfold pagesFrom
  rw [if_pos h]
  by_cases h2 : p + 1 ≤ cfg.results t
  · rw [if_pos h2]
    rw [show cfg.results t + 2 - p = (cfg.results t + 2 - (p + 1)) + 1 by omega]
    rw [List.range'_succ]
  · rw [if_neg h2]
    have hp : p = cfg.results t := by omega
    rw [show cfg.results t + 2 - p = 2 by omega]
    rw [List.range'_succ, List.range'_succ]
    simp

theorem pagesFrom_ge (cfg : DriverCfg) (t : String) (p : Nat) :
    ∀ q ∈ pagesFrom cfg t p, p ≤ q := by
  intro q hq
  unfold pagesFrom at hq
  by_cases h : p ≤ cfg.results t
  · rw [if_pos h] at hq
    exact (List.mem_range'_1.mp hq).1
  · rw [if_neg h] at hq
    simp only [List.mem_singleton] at hq
    omega

theorem pageLoop_no_interrupt (cfg : DriverCfg) (t : String)
    (hI : ∀ s q, cfg.interrupt s q = false) :
    ∀ p, pageLoop cfg t p = .normal (pagesFrom cfg t p) := by
  have aux : ∀ (d p : Nat), cfg.results t + 1 - p ≤ d →
      pageLoop cfg t p = .normal (pagesFrom cfg t p) := by
    intro d
    induction d with
    | zero =>
      intro p hp
      have hgt : ¬ p ≤ cfg.results t := by omega
      unfold pageLoop
      rw [hI t p]
      simp only [Bool.false_eq_true, if_false]
      rw [dif_neg hgt, pagesFrom_stop hgt]
    | succ d ih =>
      intro p hp
      unfold pageLoop
      rw [hI t p]
      simp only [Bool.false_eq_true, if_false]
      by_cases hle : p ≤ cfg.results t
      · rw [dif_pos hle]
        rw [ih (p + 1) (by omega)]
        rw [pagesFrom_cons hle]
      · rw [dif_neg hle, pagesFrom_stop hle]
  exact fun p => aux (cfg.results t + 1 - p) p le_rfl

theorem searchLoop_skip (cfg : DriverCfg) {s t : String}
    (hs : s ≠ "") (hne : t ≠ s) (rest : List String) (sfp : Nat) :
    searchLoop cfg (t :: rest) (some s) sfp =
      searchLoop cfg rest (some s) sfp := by
  have hcond : (pyTruthy (some s) && ((some s : Option String) != some t))
      = true := by
    simp [pyTruthy, hs, Ne.symm hne]
  simp only [searchLoop]
  rw [if_pos hcond]

theorem searchLoop_fresh (cfg : DriverCfg)
    (hI : ∀ s q, cfg.interrupt s q = false) :
    ∀ l : List String, searchLoop cfg l none 1 =
      (l.flatMap (fun t => (pagesFrom cfg t 1).map (fun q => (t, q))),
       none) := by
  intro l
  induction l with
  | nil => rfl
  | cons t rest ih =>
    simp only [searchLoop]
    rw [if_neg (by simp [pyTruthy])]
    rw [pageLoop_no_interrupt cfg t hI 1]
    rw [if_neg (by simp)]
    rw [ih]
    simp [List.flatMap_cons]

theorem searchLoop_at_cursor (cfg : DriverCfg)
    (hI : ∀ s q, cfg.interrupt s q = false) (s : String)
    (rest : List String) (sfp : Nat) :
    searchLoop cfg (s :: rest) (some s) sfp =
      ((pagesFrom cfg s sfp).map (fun q => (s, q)) ++
        rest.flatMap (fun t => (pagesFrom cfg t 1).map (fun q => (t, q))),
       none) := by
  simp only [searchLoop]
  rw [if_neg (by simp [pyTruthy])]
  rw [pageLoop_no_interrupt cfg s hI sfp]
  simp [searchLoop_fresh cfg hI rest]

/-- C3: with a persisted cursor `{search_term := s, page_number := p}` and
no interrupt, `perform_searches` skips every term before `s`, starts `s`
at page `p` (all visited pages of `s` are at least `p`, so pages `1..p-1`
are not fetched), crawls every later term from page 1, and clears the
cursor on normal completion. -/
theorem claim_C3_resumption :
    ∀ (cfg : DriverCfg) (pre post : List String) (s : String) (p : Nat),
      (∀ t q, cfg.interrupt t q = false) →
      s ∉ pre → s ≠ "" →
      perform_searches cfg (pre ++ s :: post) (some (s, p)) =
        { trace := (pagesFrom cfg s p).map (fun q => (s, q)) ++
            post.flatMap (fun t => (pagesFrom cfg t 1).map (fun q => (t, q))),
          saveEvents := [], finalCursor := none } ∧
      ∀ q ∈ pagesFrom cfg s p, p ≤ q := by
  intro cfg pre post s p hI hpre hs
  refine ⟨?_, pagesFrom_ge cfg s p⟩
  have hloop : searchLoop cfg (pre ++ s :: post) (some s) p =
      ((pagesFrom cfg s p).map (fun q => (s, q)) ++
        post.flatMap (fun t => (pagesFrom cfg t 1).map (fun q => (t, q))),
       none) := by
    induction pre with
    | nil => exact searchLoop_at_cursor cfg hI s post p
    | cons t pre' ih =>
      have ht : t ≠ s := fun h => hpre (h ▸ List.mem_cons_self t pre')
      rw [List.cons_append, searchLoop_skip cfg hs ht]
      exact ih (fun h => hpre (List.mem_cons_of_mem t h))
  simp only [perform_searches, Option.map_some']
  rw [hloop]

theorem claim_C3_resumption_witness :
    ("python" ∉ ["b"] ∧ "python" ≠ "") ∧
    perform_searches cfgTwoPages (["b"] ++ "python" :: ["c"])
        (some ("python", 3)) =
      { trace := (pagesFrom cfgTwoPages "python" 3).map
            (fun q => ("python", q)) ++
          ["c"].flatMap (fun t =>
            (pagesFrom cfgTwoPages t 1).map (fun q => (t, q))),
        saveEvents := [], finalCursor := none } :=
  ⟨⟨by decide, by decide⟩,
    (claim_C3_resumption cfgTwoPages ["b"] ["c"] "python" 3
      (fun _ _ => rfl) (by decide) (by decide)).1⟩

theorem searchLoop_snd_none (cfg : DriverCfg)
    (hI : ∀ s q, cfg.interrupt s q = false) :
    ∀ (l : List String) (sft : Option String) (sfp : Nat),
      (searchLoop cfg l sft sfp).2 = none := by
  intro l
  induction l with
  | nil => intro sft sfp; rfl
  | cons t rest ih =>
    intro sft sfp
    simp only [searchLoop]
    by_cases hc : (pyTruthy sft && (sft != some t)) = true
    · rw [if_pos hc]
      exact ih sft sfp
    · rw [if_neg hc]
      rw [pageLoop_no_interrupt cfg t hI sfp]
      exact ih _ 1

/-- C8 counterexample: in a run that processes two result pages of term
"a" and completes normally, `perform_searches` calls `save_state` not even
once, so the claimed per-page checkpointing (one persisted cursor pointing
at the next page after every processed page) is false. -/
theorem claim_C8_per_page_checkpoint_counterexample :
    (perform_searches cfgTwoPages ["a"] none).trace = [("a", 1), ("a", 2)] ∧
    (perform_searches cfgTwoPages ["a"] none).saveEvents = [] ∧
    ¬ savesCursorEachPage (perform_searches cfgTwoPages ["a"] none) := by
  have hrun : perform_searches cfgTwoPages ["a"] none =
      { trace := [("a", 1), ("a", 2)], saveEvents := [],
        finalCursor := none } := by
    have h := searchLoop_fresh cfgTwoPages (fun _ _ => rfl) ["a"]
    simp only [perform_searches, Option.map_none']
    rw [h]
    simp [pagesFrom, cfgTwoPages, List.range']
  rw [hrun]
  refine ⟨rfl, rfl, ?_⟩
  intro hcl
  simp only [savesCursorEachPage] at hcl
  cases hcl

/-- C8 amended: the driver never persists a cursor during normal page
advancement — an interrupt-free run performs no `save_state` call and ends
with the cursor cleared; `save_state` happens exactly when the run ends
interrupted, and it records the term and page being processed at the
interrupt (not the next page), as in the concrete run interrupted at page
2 of term "a". -/
theorem claim_C8_cursor_saved_only_on_interrupt :
    (∀ (cfg : DriverCfg) (terms : List String)
       (saved : Option (String × Nat)),
       (∀ t q, cfg.interrupt t q = false) →
       (perform_searches cfg terms saved).saveEvents = [] ∧
       (perform_searches cfg terms saved).finalCursor = none) ∧
    (∀ (cfg : DriverCfg) (terms : List String)
       (saved : Option (String × Nat)),
       (perform_searches cfg terms saved).saveEvents =
         match (perform_searches cfg terms saved).finalCursor with
         | none => []
         | some tp => [tp]) ∧
    perform_searches cfgInterruptP2 ["a"] none =
      { trace := [("a", 1)], saveEvents := [("a", 2)],
        finalCursor := some ("a", 2) } := by
  refine ⟨?_, ?_, ?_⟩
  · intro cfg terms saved hI
    cases saved with
    | none =>
      have h2 := searchLoop_snd_none cfg hI terms none 1
      simp only [perform_searches, Option.map_none']
      rcases hsl : searchLoop cfg terms none 1 with ⟨tr, intr⟩
      rw [hsl] at h2
      have h3 : intr = none := h2
      subst h3
      exact ⟨rfl, rfl⟩
    | some sp =>
      have h2 := searchLoop_snd_none cfg hI terms (some sp.1) sp.2
      simp only [perform_searches, Option.map_some']
      rcases hsl : searchLoop cfg terms (some sp.1) sp.2 with ⟨tr, intr⟩
      rw [hsl] at h2
      have h3 : intr = none := h2
      subst h3
      exact ⟨rfl, rfl⟩
  · intro cfg terms saved
    cases saved with
    | none =>
      simp only [perform_searches, Option.map_none']
      rcases hsl : searchLoop cfg terms none 1 with ⟨tr, intr⟩
      cases intr with
      | none => rfl
      | some tp => rfl
    | some sp =>
      simp only [perform_searches, Option.map_some']
      rcases hsl : searchLoop cfg terms (some sp.1) sp.2 with ⟨tr, intr⟩
      cases intr with
      | none => rfl
      | some tp => rfl
  · simp only [perform_searches, Option.map_none']
    have hpl : pageLoop cfgInterruptP2 "a" 1 = .interrupted [1] 2 := by
      unfold pageLoop
      rw [show cfgInterruptP2.interrupt "a" 1 = false from rfl]
      simp only [Bool.false_eq_true, if_false]
      rw [dif_pos (by simp [cfgInterruptP2])]
      unfold pageLoop
      rw [show cfgInterruptP2.interrupt "a" 2 = true from rfl]
      simp
    simp only [searchLoop]
    rw [if_neg (by simp [pyTruthy])]
    rw [hpl]
    rfl

theorem claim_C8_cursor_saved_only_on_interrupt_witness :
    (perform_searches cfgTwoPages ["a", "b"] none).saveEvents = [] ∧
    (perform_searches cfgTwoPages ["a", "b"] none).finalCursor = none :=
  claim_C8_cursor_saved_only_on_interrupt.1 cfgTwoPages ["a", "b"] none
    (fun _ _ => rfl)
